import Mathlib

/-!
Verification development for the core of a Lagrangian particle-tracking
engine (field sampling, time indexing, cell search, unit conversion,
Runge-Kutta advection kernels, trajectory output).  Python floats are
modelled by exact rationals (and by reals where the source computes
square roots or trigonometric functions); numpy arrays are modelled by
lists; exceptions are modelled by `Except`.
-/

namespace Parcels

/-! ## Unit converters (field.py, classes UnitConverter .. GeographicPolarSquare) -/

inductive Mesh where
  | flat
  | spherical
deriving DecidableEq

/-- A unit converter: `to_target`/`to_source` transforms of field.py. -/
structure UnitConverter where
  toTarget : ℝ → ℝ → ℝ → ℝ → ℝ
  toSource : ℝ → ℝ → ℝ → ℝ → ℝ

/-- field.py class UnitConverter (the identity conversion). -/
def identityUC : UnitConverter where
  toTarget := fun v _ _ _ => v
  toSource := fun v _ _ _ => v

/-- field.py class Geographic. -/
noncomputable def geographicUC : UnitConverter where
  toTarget := fun v _ _ _ => v / 1000 / 1.852 / 60
  toSource := fun v _ _ _ => v * 1000 * 1.852 * 60

/-- field.py class GeographicPolar. -/
noncomputable def geographicPolarUC : UnitConverter where
  toTarget := fun v _ y _ => v / 1000 / 1.852 / 60 / Real.cos (y * Real.pi / 180)
  toSource := fun v _ y _ => v * 1000 * 1.852 * 60 * Real.cos (y * Real.pi / 180)

/-- field.py class GeographicSquare. -/
noncomputable def geographicSquareUC : UnitConverter where
  toTarget := fun v _ _ _ => v / (1000 * 1.852 * 60) ^ 2
  toSource := fun v _ _ _ => v * (1000 * 1.852 * 60) ^ 2

/-- field.py class GeographicPolarSquare. -/
noncomputable def geographicPolarSquareUC : UnitConverter where
  toTarget := fun v _ y _ => v / (1000 * 1.852 * 60 * Real.cos (y * Real.pi / 180)) ^ 2
  toSource := fun v _ y _ => v * (1000 * 1.852 * 60 * Real.cos (y * Real.pi / 180)) ^ 2

/-- The `Field.unitconverters` dictionary of field.py. -/
noncomputable def unitconverters (name : String) : Option UnitConverter :=
  if name = "U" then some geographicPolarUC
  else if name = "V" then some geographicUC
  else if name = "Kh_zonal" then some geographicPolarSquareUC
  else if name = "Kh_meridional" then some geographicSquareUC
  else none

/-- Unit-converter assignment of `Field.__init__` (field.py lines 231-236):
identity on a flat mesh or for a name outside the dictionary, the
dictionary entry on a spherical mesh. -/
noncomputable def assignUnits (mesh : Mesh) (name : String) : UnitConverter :=
  match mesh, unitconverters name with
  | Mesh.flat, _ => identityUC
  | Mesh.spherical, none => identityUC
  | Mesh.spherical, some uc => uc

/-! ## Time flags at field construction (field.py, Field.__init__ lines 239-248) -/

/-- The (`time_periodic`, `allow_time_extrapolation`) pair stored by
`Field.__init__`: the default for `allow_time_extrapolation` is true iff
no time axis was given, and a true `time_periodic` forces
`allow_time_extrapolation` to false. -/
def initTimeFlags (timeGiven : Bool) (allowExtrapArg : Option Bool)
    (timePeriodic : Bool) : Bool × Bool :=
  let allow :=
    match allowExtrapArg with
    | none => !timeGiven
    | some b => b
  if timePeriodic && allow then (timePeriodic, false) else (timePeriodic, allow)

/-! ## Data sanitisation at field construction (field.py, Field.__init__ lines 264-270) -/

/-- A float32 datum: either NaN or a finite value. -/
inductive FloatVal where
  | nan
  | fin (q : ℚ)
deriving DecidableEq

def FloatVal.isNan : FloatVal → Bool
  | FloatVal.nan => true
  | FloatVal.fin _ => false

/-- Does `q` lie strictly below the (optional) bound `vmin`? -/
def belowMinB (vmin : Option ℚ) (q : ℚ) : Bool :=
  match vmin with
  | none => false
  | some m => decide (q < m)

/-- Does `q` lie strictly above the (optional) bound `vmax`? -/
def aboveMaxB (vmax : Option ℚ) (q : ℚ) : Bool :=
  match vmax with
  | none => false
  | some m => decide (m < q)

/-- `data[data < vmin] = 0.`: a NaN compares false, so it is untouched. -/
def applyVmin (vmin : Option ℚ) : FloatVal → FloatVal
  | FloatVal.nan => FloatVal.nan
  | FloatVal.fin q => if belowMinB vmin q then FloatVal.fin 0 else FloatVal.fin q

/-- `data[data > vmax] = 0.`: a NaN compares false, so it is untouched. -/
def applyVmax (vmax : Option ℚ) : FloatVal → FloatVal
  | FloatVal.nan => FloatVal.nan
  | FloatVal.fin q => if aboveMaxB vmax q then FloatVal.fin 0 else FloatVal.fin q

/-- `data[np.isnan(data)] = 0.` -/
def applyNanFix : FloatVal → FloatVal
  | FloatVal.nan => FloatVal.fin 0
  | FloatVal.fin q => FloatVal.fin q

/-- The three sanitisation passes of `Field.__init__` in source order:
zero out below `vmin`, zero out above `vmax`, zero out NaN. -/
def sanitize (vmin vmax : Option ℚ) (data : List FloatVal) : List FloatVal :=
  ((data.map (applyVmin vmin)).map (applyVmax vmax)).map applyNanFix

/-! ## Cell search (field.py, search_indices_rectilinear, search_indices_vertical_z,
search_indices_curvilinear, fix_i_index) -/

section CellSearchDefs

variable {F : Type} [LinearOrderedField F]

/-- numpy `(arr <= x).argmin()` on the boolean prefix array `arr <= x`:
the index of the first element strictly greater than `x`.  (On an all-true
array numpy yields 0 and `findIdx` yields the length; every use in the
source is guarded so that an element `> x` exists.) -/
def firstGTIndex (arr : List F) (x : F) : ℕ :=
  arr.findIdx (fun v => decide (x < v))

end CellSearchDefs

/-- `aa = a₃·b₂ − a₂·b₃` of the curvilinear search, written out with
`a = invA·px`, `b = invA·py`, i.e. `a₀ = px₀`, `a₁ = px₁−px₀`,
`a₂ = px₃−px₀`, `a₃ = px₀−px₁+px₂−px₃` (and the same for `b` from `py`). -/
noncomputable def curvAA (px0 px1 px2 px3 py0 py1 py2 py3 : ℝ) : ℝ :=
  (px0 - px1 + px2 - px3) * (py3 - py0) - (px3 - px0) * (py0 - py1 + py2 - py3)

/-- `bb = a₃b₀ − a₀b₃ + a₁b₂ − a₂b₁ + x·b₃ − y·a₃` of the curvilinear search. -/
noncomputable def curvBB (x y px0 px1 px2 px3 py0 py1 py2 py3 : ℝ) : ℝ :=
  (px0 - px1 + px2 - px3) * py0 - px0 * (py0 - py1 + py2 - py3) +
    (px1 - px0) * (py3 - py0) - (px3 - px0) * (py1 - py0) +
    x * (py0 - py1 + py2 - py3) - y * (px0 - px1 + px2 - px3)

/-- `cc = a₁b₀ − a₀b₁ + x·b₁ − y·a₁` of the curvilinear search. -/
noncomputable def curvCC (x y px0 px1 px2 px3 py0 py1 py2 py3 : ℝ) : ℝ :=
  (px1 - px0) * py0 - px0 * (py1 - py0) + x * (py1 - py0) - y * (px1 - px0)

/-- `det2 = bb² − 4·aa·cc` of the curvilinear search. -/
noncomputable def curvDet2 (x y px0 px1 px2 px3 py0 py1 py2 py3 : ℝ) : ℝ :=
  curvBB x y px0 px1 px2 px3 py0 py1 py2 py3 * curvBB x y px0 px1 px2 px3 py0 py1 py2 py3 -
    4 * curvAA px0 px1 px2 px3 py0 py1 py2 py3 * curvCC x y px0 px1 px2 px3 py0 py1 py2 py3

/-- The positive quadratic root `η = (−bb + √det2) / (2·aa)` taken by the
curvilinear search. -/
noncomputable def curvEtaPlus (x y px0 px1 px2 px3 py0 py1 py2 py3 : ℝ) : ℝ :=
  (-curvBB x y px0 px1 px2 px3 py0 py1 py2 py3 +
      Real.sqrt (curvDet2 x y px0 px1 px2 px3 py0 py1 py2 py3)) /
    (2 * curvAA px0 px1 px2 px3 py0 py1 py2 py3)

/-- The spec's closed-form `η = (−bb + √(bb²−4·aa·cc)) / (2·aa)`, stated from
the claim's own words for comparison with the code's iteration. -/
noncomputable def claimCurvEta (aa bb cc : ℝ) : ℝ :=
  (-bb + Real.sqrt (bb * bb - 4 * aa * cc)) / (2 * aa)

/-- One `(ξ, η)` update of the curvilinear search loop (field.py lines
609-630): the corners `px₀..px₃, py₀..py₃` are the four (wrap-adjusted)
cell corners in source order `(yi,xi), (yi,xi+1), (yi+1,xi+1), (yi+1,xi)`;
when `|aa| < 10⁻¹²` the cell is treated as rectilinear, when
`det2 = bb²−4·aa·cc > 0` the quadratic is solved, and otherwise the
previous iteration's `(ξ, η)` are retained. -/
noncomputable def curvIterCoords (x y px0 px1 px2 px3 py0 py1 py2 py3 xsiPrev etaPrev : ℝ) :
    ℝ × ℝ :=
  if |curvAA px0 px1 px2 px3 py0 py1 py2 py3| < 1e-12 then
    (((x - px0) / (px1 - px0) + (x - px3) / (px2 - px3)) * (1 / 2),
     ((y - py0) / (py3 - py0) + (y - py1) / (py2 - py1)) * (1 / 2))
  else if 0 < curvDet2 x y px0 px1 px2 px3 py0 py1 py2 py3 then
    ((x - px0 - (px3 - px0) * curvEtaPlus x y px0 px1 px2 px3 py0 py1 py2 py3) /
       ((px1 - px0) + (px0 - px1 + px2 - px3) * curvEtaPlus x y px0 px1 px2 px3 py0 py1 py2 py3),
     curvEtaPlus x y px0 px1 px2 px3 py0 py1 py2 py3)
  else (xsiPrev, etaPrev)

/-- One fourth-order Runge-Kutta step of `AdvectionRK4`:
`uv` is the `fieldset.UV` evaluation, taking time, lon, lat, depth. -/
def rk4 (uv : ℚ → ℚ → ℚ → ℚ → ℚ × ℚ) (lon lat depth time dt : ℚ) : ℚ × ℚ :=
  let k1 := uv time lon lat depth
  let lon1 := lon + k1.1 * (1/2) * dt
  let lat1 := lat + k1.2 * (1/2) * dt
  let k2 := uv (time + (1/2) * dt) lon1 lat1 depth
  let lon2 := lon + k2.1 * (1/2) * dt
  let lat2 := lat + k2.2 * (1/2) * dt
  let k3 := uv (time + (1/2) * dt) lon2 lat2 depth
  let lon3 := lon + k3.1 * dt
  let lat3 := lat + k3.2 * dt
  let k4 := uv (time + dt) lon3 lat3 depth
  (lon + (k1.1 + 2 * k2.1 + 2 * k3.1 + k4.1) / 6 * dt,
   lat + (k1.2 + 2 * k2.2 + 2 * k3.2 + k4.2) / 6 * dt)

/-- `n` consecutive `AdvectionRK4` steps of step size `dt`, with the
particle clock advanced by `dt` after each step. -/
def rk4Iter (uv : ℚ → ℚ → ℚ → ℚ → ℚ × ℚ) :
    ℕ → ℚ → ℚ → ℚ → ℚ → ℚ → ℚ × ℚ
  | 0, lon, lat, _, _, _ => (lon, lat)
  | n + 1, lon, lat, depth, time, dt =>
    let p := rk4 uv lon lat depth time dt
    rk4Iter uv n p.1 p.2 depth (time + dt) dt

/-- The kernel status returned by `AdvectionRK45`: either implicit success
or `ErrorCode.Repeat` (asking the driver to re-integrate with the new dt). -/
inductive ErrorCode where
  | success
  | repeatIter
deriving DecidableEq

/-- The mutable particle state an advection kernel touches. -/
structure Particle where
  lon : ℚ
  lat : ℚ
  depth : ℚ
  time : ℚ
  dt : ℚ
deriving DecidableEq

/-- The default RK45 tolerance `tol = [1e-9]` of `AdvectionRK45`. -/
def rk45Tol : ℚ := 1e-9

/-- The six Fehlberg stages of `AdvectionRK45` (advection.py lines 66-95),
returning `(lon_4th, lat_4th, lon_5th, lat_5th)`; the `A`, `b4`, `b5`, `c`
coefficients appear literally. -/
def rk45Stages (uv : ℚ → ℚ → ℚ → ℚ → ℚ × ℚ) (p : Particle) (time dt : ℚ) :
    ℚ × ℚ × ℚ × ℚ :=
  let k1 := uv time p.lon p.lat p.depth
  let lon1 := p.lon + k1.1 * (1/4) * dt
  let lat1 := p.lat + k1.2 * (1/4) * dt
  let k2 := uv (time + (1/4) * dt) lon1 lat1 p.depth
  let lon2 := p.lon + (k1.1 * (3/32) + k2.1 * (9/32)) * dt
  let lat2 := p.lat + (k1.2 * (3/32) + k2.2 * (9/32)) * dt
  let k3 := uv (time + (3/8) * dt) lon2 lat2 p.depth
  let lon3 := p.lon + (k1.1 * (1932/2197) + k2.1 * (-7200/2197) + k3.1 * (7296/2197)) * dt
  let lat3 := p.lat + (k1.2 * (1932/2197) + k2.2 * (-7200/2197) + k3.2 * (7296/2197)) * dt
  let k4 := uv (time + (12/13) * dt) lon3 lat3 p.depth
  let lon4 := p.lon + (k1.1 * (439/216) + k2.1 * (-8) + k3.1 * (3680/513) +
    k4.1 * (-845/4104)) * dt
  let lat4 := p.lat + (k1.2 * (439/216) + k2.2 * (-8) + k3.2 * (3680/513) +
    k4.2 * (-845/4104)) * dt
  let k5 := uv (time + 1 * dt) lon4 lat4 p.depth
  let lon5 := p.lon + (k1.1 * (-8/27) + k2.1 * 2 + k3.1 * (-3544/2565) +
    k4.1 * (1859/4104) + k5.1 * (-11/40)) * dt
  let lat5 := p.lat + (k1.2 * (-8/27) + k2.2 * 2 + k3.2 * (-3544/2565) +
    k4.2 * (1859/4104) + k5.2 * (-11/40)) * dt
  let k6 := uv (time + (1/2) * dt) lon5 lat5 p.depth
  (p.lon + (k1.1 * (25/216) + k2.1 * 0 + k3.1 * (1408/2565) + k4.1 * (2197/4104) +
     k5.1 * (-1/5)) * dt,
   p.lat + (k1.2 * (25/216) + k2.2 * 0 + k3.2 * (1408/2565) + k4.2 * (2197/4104) +
     k5.2 * (-1/5)) * dt,
   p.lon + (k1.1 * (16/135) + k2.1 * 0 + k3.1 * (6656/12825) + k4.1 * (28561/56430) +
     k5.1 * (-9/50) + k6.1 * (2/55)) * dt,
   p.lat + (k1.2 * (16/135) + k2.2 * 0 + k3.2 * (6656/12825) + k4.2 * (28561/56430) +
     k5.2 * (-9/50) + k6.2 * (2/55)) * dt)

/-- `AdvectionRK45` (advection.py lines 97-105).  The source compares
`kappa = sqrt((lon₅−lon₄)² + (lat₅−lat₄)²)` with the nonnegative bounds
`fabs(dt·tol)` and `fabs(dt·tol/10)`; squaring both sides (an equivalence,
both sides being nonnegative) keeps the embedding in exact rationals. -/
def rk45 (uv : ℚ → ℚ → ℚ → ℚ → ℚ × ℚ) (p : Particle) (time dt : ℚ) :
    Particle × ErrorCode :=
  let s := rk45Stages uv p time dt
  if (s.2.2.1 - s.1) ^ 2 + (s.2.2.2 - s.2.1) ^ 2 ≤ |dt * rk45Tol| ^ 2 then
    ({ p with
        lon := s.1
        lat := s.2.1
        dt := if (s.2.2.1 - s.1) ^ 2 + (s.2.2.2 - s.2.1) ^ 2 ≤ |dt * rk45Tol / 10| ^ 2 then
          p.dt * 2 else p.dt },
     ErrorCode.success)
  else ({ p with dt := p.dt / 2 }, ErrorCode.repeatIter)

/-! ## Trajectory output (particlefile.py, ParticleFile.write in array mode) -/

/-- Python `max(list)` of a list of ids. -/
def pyMax (l : List ℤ) : ℤ := l.foldl max (l.headD 0)

/-- numpy `np.arange(len(recorded))[np.in1d(recorded, pids)]`: the positions
of the recorded trajectory ids that occur in the particle set, in increasing
order (particlefile.py lines 155-157). -/
def inPositions (recorded pids : List ℤ) : List ℕ :=
  match recorded with
  | [] => []
  | r :: rs =>
    if r ∈ pids then 0 :: (inPositions rs pids).map (· + 1)
    else (inPositions rs pids).map (· + 1)

/-- `ParticleFile.write` in array mode (particlefile.py lines 139-171),
reduced to the data that decides the claim: the recorded trajectory ids,
the last written time, and the ids of the particle set.  Returns `none`
when the write is skipped (`lasttime_written == time`), raises on an id
overflow, and otherwise returns the slot positions written this round
(slot `inds[k]` receives the data of particle `k`, numpy assigning
positionally). -/
def pfWriteArray (recorded : List ℤ) (lastTime : Option ℚ) (time : ℚ)
    (pids : List ℤ) : Except Unit (Option (List ℕ)) :=
  if lastTime = some time then Except.ok none
  else if pids ≠ [] ∧ recorded.getLastD 0 < pyMax pids then Except.error ()
  else Except.ok (some (inPositions recorded pids))

/-! ## Time indexing (field.py, Field.time_index and Field.eval) -/

/-- The time-axis data of a Field that `time_index` and `eval` consult:
the grid's time array and the two temporal flags. -/
structure TimeParams where
  times : List ℚ
  timePeriodic : Bool
  allowTimeExtrapolation : Bool

/-- `Field.time_index` (field.py lines 747-769).  Returns the snapshot
index and the periodic-wrap count, or a `TimeExtrapolationError`. -/
def timeIndex (f : TimeParams) (time : ℚ) : Except Unit (ℕ × ℤ) :=
  let ts := f.times
  if f.timePeriodic = false ∧ f.allowTimeExtrapolation = false ∧
      (time < ts.headD 0 ∨ ts.getLastD 0 < time) then
    Except.error ()
  else if f.timePeriodic then
    if ts.all (fun v => decide (v ≤ time)) ∨ ts.all (fun v => decide (time < v)) then
      let periods : ℤ := ⌊(time - ts.headD 0) / (ts.getLastD 0 - ts.headD 0)⌋
      let t2 := time - (periods : ℚ) * (ts.getLastD 0 - ts.headD 0)
      Except.ok
        (if ts.any (fun v => decide (v ≤ t2)) then firstGTIndex ts t2 - 1 else 0, periods)
    else
      Except.ok
        (if ts.any (fun v => decide (v ≤ time)) then firstGTIndex ts time - 1 else 0, 0)
  else if ts.all (fun v => decide (v ≤ time)) then
    Except.ok (ts.length - 1, 0)
  else
    Except.ok
      (if ts.any (fun v => decide (v ≤ time)) then firstGTIndex ts time - 1 else 0, 0)

/-- The period-adjusted time of `Field.eval` (field.py line 791):
`time -= periods * (time[-1] - time[0])`. -/
def adjTime (f : TimeParams) (time : ℚ) (periods : ℤ) : ℚ :=
  time - (periods : ℚ) * (f.times.getLastD 0 - f.times.headD 0)

/-- Python `grid.time[t_idx - 1]` for `t_idx ≥ 0`: index `-1` wraps to the
last element. -/
def pySub1Time (ts : List ℚ) (ti : ℕ) : ℚ :=
  if ti = 0 then ts.getLastD 0 else ts.getD (ti - 1) 0

/-- `Field.eval` (field.py lines 783-807) with the spatial interpolation
abstracted: `samp i t` is `spatial_interpolation` at snapshot index `i` and
interpolation time `t` for the (fixed) query position, and `conv` is the
unit converter's `to_target` at that position. -/
def fieldEval (f : TimeParams) (samp : ℕ → ℚ → ℚ) (conv : ℚ → ℚ)
    (time : ℚ) (applyConversion : Bool) : Except Unit ℚ :=
  match timeIndex f time with
  | Except.error e => Except.error e
  | Except.ok (ti, periods) =>
    let ts := f.times
    let t2 := adjTime f time periods
    let value :=
      if ti < ts.length - 1 ∧ ts.getD ti 0 < t2 then
        let f0 := samp ti t2
        let f1 := samp (ti + 1) t2
        f0 + (f1 - f0) * ((t2 - ts.getD ti 0) / (ts.getD (ti + 1) 0 - ts.getD ti 0))
      else samp ti (pySub1Time ts ti)
    Except.ok (if applyConversion then conv value else value)

end Parcels

namespace Parcels

/-! ## Sorted-list index lemmas -/

section SortedLemmas

variable {F : Type} [LinearOrderedField F]

theorem sorted_getD_lt (arr : List F) (hs : List.Sorted (· < ·) arr) {i j : ℕ}
    (hij : i < j) (hj : j < arr.length) : arr.getD i 0 < arr.getD j 0 := by
  have hi : i < arr.length := lt_trans hij hj
  have h2 : (⟨i, hi⟩ : Fin arr.length) < ⟨j, hj⟩ := Fin.mk_lt_mk.mpr hij
  have h3 := hs.rel_get_of_lt h2
  rw [List.getD_eq_getElem arr 0 hi, List.getD_eq_getElem arr 0 hj]
  simpa [List.get_eq_getElem] using h3

theorem sorted_getD_le (arr : List F) (hs : List.Sorted (· < ·) arr) {i j : ℕ}
    (hij : i ≤ j) (hj : j < arr.length) : arr.getD i 0 ≤ arr.getD j 0 := by
  rcases eq_or_lt_of_le hij with rfl | hlt
  · exact le_refl _
  · exact le_of_lt (sorted_getD_lt arr hs hlt hj)

theorem sorted_head_le (arr : List F) (hs : List.Sorted (· < ·) arr)
    {a : F} (ha : a ∈ arr) : arr.getD 0 0 ≤ a := by
  obtain ⟨i, hi, rfl⟩ := List.mem_iff_getElem.mp ha
  rw [← List.getD_eq_getElem arr 0 hi]
  exact sorted_getD_le arr hs (Nat.zero_le i) hi

theorem sorted_le_last (arr : List F) (hs : List.Sorted (· < ·) arr)
    {a : F} (ha : a ∈ arr) : a ≤ arr.getD (arr.length - 1) 0 := by
  obtain ⟨i, hi, rfl⟩ := List.mem_iff_getElem.mp ha
  rw [← List.getD_eq_getElem arr 0 hi]
  exact sorted_getD_le arr hs (by omega) (by omega)

/-- Behaviour of the numpy `argmin - 1` idiom on a sorted array when some
element exceeds `x` and the first element does not: it yields the largest
index whose entry is `≤ x`, and the next entry exceeds `x`. -/
theorem firstGT_spec (arr : List F) (x : F) (hs : List.Sorted (· < ·) arr)
    (h0 : arr.getD 0 0 ≤ x) (hex : ∃ a ∈ arr, x < a) :
    (firstGTIndex arr x - 1) + 1 < arr.length ∧
    arr.getD (firstGTIndex arr x - 1) 0 ≤ x ∧
    x < arr.getD ((firstGTIndex arr x - 1) + 1) 0 ∧
    ∀ j, j < arr.length → arr.getD j 0 ≤ x → j ≤ firstGTIndex arr x - 1 := by
  have hex2 : ∃ a ∈ arr, (fun v => decide (x < v)) a = true := by
    obtain ⟨a, ha, hxa⟩ := hex
    exact ⟨a, ha, by simpa using hxa⟩
  have hk : List.findIdx (fun v => decide (x < v)) arr < arr.length :=
    List.findIdx_lt_length_of_exists hex2
  have hklen : firstGTIndex arr x < arr.length := hk
  have hpk : x < arr.getD (firstGTIndex arr x) 0 := by
    rw [List.getD_eq_getElem arr 0 hklen]
    have := @List.findIdx_getElem F (fun v => decide (x < v)) arr hk
    simpa using this
  have hk0 : firstGTIndex arr x ≠ 0 := by
    intro h
    rw [h] at hpk
    exact absurd h0 (not_le.mpr hpk)
  have hk1 : 1 ≤ firstGTIndex arr x := Nat.one_le_iff_ne_zero.mpr hk0
  have hsucc : (firstGTIndex arr x - 1) + 1 = firstGTIndex arr x :=
    Nat.succ_pred_eq_of_pos hk1
  have hlt : firstGTIndex arr x - 1 < firstGTIndex arr x := Nat.sub_lt hk1 one_pos
  have hprev : arr.getD (firstGTIndex arr x - 1) 0 ≤ x := by
    have h5 : (fun v => decide (x < v)) arr[firstGTIndex arr x - 1] = false :=
      List.not_of_lt_findIdx hlt
    rw [List.getD_eq_getElem arr 0 (lt_trans hlt hklen)]
    exact not_lt.mp (by simpa using h5)
  refine ⟨by omega, hprev, ?_, ?_⟩
  · rw [hsucc]
    exact hpk
  · intro j hj hjle
    by_contra hcon
    have hkj : firstGTIndex arr x ≤ j := by omega
    have hxj : x < arr.getD j 0 := by
      rcases eq_or_lt_of_le hkj with heq | hlt2
      · rw [← heq]
        exact hpk
      · exact lt_trans hpk (sorted_getD_lt arr hs hlt2 hj)
    exact absurd hjle (not_le.mpr hxj)

end SortedLemmas

/-! ## Theorems for claims C5, C6, C9, C10 -/

theorem rk4_const_step (uv : ℚ → ℚ → ℚ → ℚ → ℚ × ℚ) (u v : ℚ)
    (h : ∀ t x y z, uv t x y z = (u, v)) (lon lat depth time dt : ℚ) :
    rk4 uv lon lat depth time dt = (lon + u * dt, lat + v * dt) := by
  simp only [rk4, h, Prod.mk.injEq]
  exact ⟨by ring, by ring⟩

/-- C5: on a steady uniform flow `(u, v)`, one `AdvectionRK4` step moves the
particle by exactly `(u·dt, v·dt)`, and after `n` steps (total time `T = n·dt`)
the position is exactly `(x₀ + u·T, y₀ + v·T)`. -/
theorem c5_rk4_uniform_flow_exact (uv : ℚ → ℚ → ℚ → ℚ → ℚ × ℚ) (u v : ℚ)
    (h : ∀ t x y z, uv t x y z = (u, v)) (lon lat depth time dt : ℚ) :
    rk4 uv lon lat depth time dt = (lon + u * dt, lat + v * dt) ∧
    ∀ (n : ℕ) (lon0 lat0 t0 : ℚ),
      rk4Iter uv n lon0 lat0 depth t0 dt = (lon0 + u * (n * dt), lat0 + v * (n * dt)) := by
  refine ⟨rk4_const_step uv u v h lon lat depth time dt, ?_⟩
  intro n
  induction n with
  | zero => intro lon0 lat0 t0; simp [rk4Iter]
  | succ m ih =>
    intro lon0 lat0 t0
    rw [rk4Iter, rk4_const_step uv u v h, ih]
    push_cast
    simp only [Prod.mk.injEq]
    exact ⟨by ring, by ring⟩

theorem c5_rk4_uniform_flow_exact_witness :
    rk4 (fun _ _ _ _ => ((3 : ℚ), (4 : ℚ))) 10 20 0 0 2 = (10 + 3 * 2, 20 + 4 * 2) :=
  (c5_rk4_uniform_flow_exact (fun _ _ _ _ => ((3 : ℚ), (4 : ℚ))) 3 4
    (fun _ _ _ _ => rfl) 10 20 0 0 2).1

/-- C6: unit-converter assignment by field name on spherical meshes
(`U`, `V`, `Kh_zonal`, `Kh_meridional`, all others and all flat meshes),
the target/source ratio of each converter, and the to_source/to_target
round trip (for the polar converters wherever `cos(y·π/180) ≠ 0`). -/
theorem c6_unit_converters (name : String) (x y z v : ℝ)
    (hcos : Real.cos (y * Real.pi / 180) ≠ 0) :
    assignUnits Mesh.spherical "U" = geographicPolarUC ∧
    assignUnits Mesh.spherical "V" = geographicUC ∧
    assignUnits Mesh.spherical "Kh_zonal" = geographicPolarSquareUC ∧
    assignUnits Mesh.spherical "Kh_meridional" = geographicSquareUC ∧
    (name ≠ "U" → name ≠ "V" → name ≠ "Kh_zonal" → name ≠ "Kh_meridional" →
      assignUnits Mesh.spherical name = identityUC) ∧
    assignUnits Mesh.flat name = identityUC ∧
    geographicUC.toTarget v x y z = v / (1000 * 1.852 * 60) ∧
    geographicPolarUC.toTarget v x y z
      = v / (1000 * 1.852 * 60 * Real.cos (y * Real.pi / 180)) ∧
    geographicSquareUC.toTarget v x y z = v / (1000 * 1.852 * 60) ^ 2 ∧
    geographicPolarSquareUC.toTarget v x y z
      = v / (1000 * 1.852 * 60 * Real.cos (y * Real.pi / 180)) ^ 2 ∧
    identityUC.toSource (identityUC.toTarget v x y z) x y z = v ∧
    geographicUC.toSource (geographicUC.toTarget v x y z) x y z = v ∧
    geographicPolarUC.toSource (geographicPolarUC.toTarget v x y z) x y z = v ∧
    geographicSquareUC.toSource (geographicSquareUC.toTarget v x y z) x y z = v ∧
    geographicPolarSquareUC.toSource
      (geographicPolarSquareUC.toTarget v x y z) x y z = v := by
  refine ⟨rfl, rfl, rfl, rfl, ?_, ?_, ?_, ?_, rfl, rfl, rfl, ?_, ?_, ?_, ?_⟩
  · intro h1 h2 h3 h4
    simp [assignUnits, unitconverters, h1, h2, h3, h4]
  · simp [assignUnits]
  · simp [geographicUC, div_div]
    try norm_num
  · simp [geographicPolarUC, div_div]
    try norm_num
  · simp [geographicUC]
    field_simp
    try ring
  · simp [geographicPolarUC]
    field_simp
    try ring
  · simp [geographicSquareUC]
    field_simp
    try ring
  · simp [geographicPolarSquareUC]
    field_simp
    try ring

theorem c6_unit_converters_witness :
    geographicPolarUC.toSource (geographicPolarUC.toTarget 5 0 0 0) 0 0 0 = 5 := by
  have h := c6_unit_converters "temp" 0 0 0 5 (by simp)
  tauto

/-- C9: the flags stored by `Field.__init__` never have `time_periodic` and
`allow_time_extrapolation` simultaneously true; in particular when both are
requested, extrapolation is forced off. -/
theorem c9_flags_invariant (timeGiven : Bool) (allowExtrapArg : Option Bool)
    (timePeriodic : Bool) :
    ((initTimeFlags timeGiven allowExtrapArg timePeriodic).1 &&
      (initTimeFlags timeGiven allowExtrapArg timePeriodic).2) = false ∧
    (initTimeFlags timeGiven (some true) true).2 = false := by
  constructor
  · cases timePeriodic with
    | false => simp [initTimeFlags]
    | true =>
      cases allowExtrapArg with
      | none => cases timeGiven <;> simp [initTimeFlags]
      | some b => cases b <;> simp [initTimeFlags]
  · simp [initTimeFlags]

/-- C10: after the sanitisation passes of `Field.__init__`, every NaN has
become 0, an entry strictly below `vmin` or strictly above `vmax` has become
0 (not clamped to the bound), every other entry is unchanged, and no NaN
remains in the stored data. -/
theorem c10_sanitize_no_nan (vmin vmax : Option ℚ) (data : List FloatVal) :
    sanitize vmin vmax data = data.map (fun w =>
      match w with
      | FloatVal.nan => FloatVal.fin 0
      | FloatVal.fin q =>
        if belowMinB vmin q || aboveMaxB vmax q then FloatVal.fin 0
        else FloatVal.fin q) ∧
    (sanitize vmin vmax data).all (fun w => !w.isNan) = true := by
  have hmap : sanitize vmin vmax data = data.map (fun w =>
      match w with
      | FloatVal.nan => FloatVal.fin 0
      | FloatVal.fin q =>
        if belowMinB vmin q || aboveMaxB vmax q then FloatVal.fin 0
        else FloatVal.fin q) := by
    simp only [sanitize, List.map_map]
    apply List.map_congr_left
    intro w _
    cases w with
    | nan => simp [applyVmin, applyVmax, applyNanFix]
    | fin q =>
      cases hn : belowMinB vmin q with
      | true =>
        cases h0 : aboveMaxB vmax (0 : ℚ) <;>
          simp [applyVmin, applyVmax, applyNanFix, hn, h0]
      | false =>
        cases hx : aboveMaxB vmax q <;>
          simp [applyVmin, applyVmax, applyNanFix, hn, hx]
  refine ⟨hmap, ?_⟩
  rw [hmap, List.all_eq_true]
  intro w hw
  rw [List.mem_map] at hw
  obtain ⟨a, _, rfl⟩ := hw
  cases a with
  | nan => simp [FloatVal.isNan]
  | fin q =>
    cases h : belowMinB vmin q || aboveMaxB vmax q <;> simp [h, FloatVal.isNan]

/-! ## Theorems for claims C1 and C2 -/

/-- C1: `Field.eval` first calls `time_index`, subtracts
`periods·(t[-1]−t[0])` from the sampling time, then linearly blends the
spatial samples at snapshots `t_idx` and `t_idx+1` when `t_idx < T−1` and
the adjusted time exceeds `t[t_idx]`, and otherwise returns the spatial
sample at snapshot `t_idx` alone; the unit conversion is applied exactly
when `apply_units` is true. -/
theorem c1_field_eval (f : TimeParams) (samp : ℕ → ℚ → ℚ) (conv : ℚ → ℚ)
    (time : ℚ) (ti : ℕ) (periods : ℤ)
    (h : timeIndex f time = Except.ok (ti, periods)) :
    (ti < f.times.length - 1 ∧ f.times.getD ti 0 < adjTime f time periods →
      fieldEval f samp conv time true = Except.ok (conv
        (samp ti (adjTime f time periods) +
          (samp (ti + 1) (adjTime f time periods) - samp ti (adjTime f time periods)) *
          ((adjTime f time periods - f.times.getD ti 0) /
            (f.times.getD (ti + 1) 0 - f.times.getD ti 0))))) ∧
    (¬(ti < f.times.length - 1 ∧ f.times.getD ti 0 < adjTime f time periods) →
      fieldEval f samp conv time true = Except.ok (conv (samp ti (pySub1Time f.times ti)))) ∧
    (∀ v, fieldEval f samp conv time false = Except.ok v →
      fieldEval f samp conv time true = Except.ok (conv v)) := by
  refine ⟨?_, ?_, ?_⟩
  · intro hc
    simp only [fieldEval, h]
    rw [if_pos hc]
    simp
  · intro hc
    simp only [fieldEval, h]
    rw [if_neg hc]
    simp
  · intro v hv
    simp only [fieldEval, h] at hv ⊢
    simp only [if_neg Bool.false_ne_true, Except.ok.injEq] at hv
    rw [hv]
    simp

theorem c1_field_eval_witness :
    fieldEval ⟨[0, 10], false, false⟩ (fun i _ => (i : ℚ)) (fun v => 2 * v) 5 true
      = Except.ok 1 := by
  have h : timeIndex ⟨[0, 10], false, false⟩ 5 = Except.ok (0, 0) := by
    norm_num [timeIndex, firstGTIndex, List.findIdx, List.findIdx.go]
  have h2 := (c1_field_eval ⟨[0, 10], false, false⟩ (fun i _ => (i : ℚ))
    (fun v => 2 * v) 5 0 0 h).1 (by norm_num [adjTime])
  rw [h2]
  norm_num [adjTime]

/-- C2 fails as stated: with extrapolation allowed and `time` before the
first snapshot, `time_index` raises nothing and returns index 0, yet no
index satisfies `t[idx] ≤ time`; so it does not return "the largest index
with `t[idx] ≤ time`". -/
theorem c2_time_index_counterexample :
    timeIndex ⟨[0, 10], false, true⟩ (-5) = Except.ok (0, 0) ∧
    ∀ j, j < 2 → ¬(([0, 10] : List ℚ).getD j 0 ≤ (-5 : ℚ)) := by
  constructor
  · norm_num [timeIndex]
  · intro j hj
    interval_cases j <;> norm_num

/-- C2 (amended): `time_index` raises `TimeExtrapolationError` iff the field
is neither periodic nor extrapolating and `time` is outside `[t[0], t[T−1]]`;
for a non-periodic field a normal return carries `periods = 0` and an index
that is the largest with `t[idx] ≤ time` whenever `t[0] ≤ time` (so `T−1`
when `time > t[T−1]`, the last-frame hold), while for `time < t[0]` (only
reachable with extrapolation) the index is clamped to 0. -/
theorem c2_time_index_amended (f : TimeParams) (time : ℚ)
    (hs : List.Sorted (· < ·) f.times) (hlen : 0 < f.times.length) :
    (timeIndex f time = Except.error () ↔
      f.timePeriodic = false ∧ f.allowTimeExtrapolation = false ∧
        (time < f.times.headD 0 ∨ f.times.getLastD 0 < time)) ∧
    (f.timePeriodic = false →
      ∀ ti periods, timeIndex f time = Except.ok (ti, periods) →
        periods = 0 ∧
        (time < f.times.getD 0 0 → ti = 0) ∧
        (f.times.getD 0 0 ≤ time →
          f.times.getD ti 0 ≤ time ∧
          ∀ j, j < f.times.length → f.times.getD j 0 ≤ time → j ≤ ti) ∧
        (f.times.getD (f.times.length - 1) 0 < time → ti = f.times.length - 1)) := by
  have hmem0 : f.times.getD 0 0 ∈ f.times := by
    rw [List.getD_eq_getElem f.times 0 hlen]
    exact List.getElem_mem hlen
  have hmemL : f.times.getD (f.times.length - 1) 0 ∈ f.times := by
    rw [List.getD_eq_getElem f.times 0 (by omega)]
    exact List.getElem_mem (by omega)
  constructor
  · constructor
    · intro h
      by_contra hC
      rw [not_and_or, not_and_or] at hC
      unfold timeIndex at h
      rw [if_neg (by tauto)] at h
      by_cases hp : f.timePeriodic = true
      · rw [if_pos hp] at h
        revert h
        split <;> simp
      · rw [if_neg hp] at h
        revert h
        split <;> simp
    · intro hC
      unfold timeIndex
      rw [if_pos hC]
  · intro hp ti periods h
    unfold timeIndex at h
    by_cases hC : f.timePeriodic = false ∧ f.allowTimeExtrapolation = false ∧
        (time < f.times.headD 0 ∨ f.times.getLastD 0 < time)
    · rw [if_pos hC] at h
      exact absurd h (by simp)
    · rw [if_neg hC, if_neg (by simp [hp])] at h
      by_cases hall : f.times.all (fun v => decide (v ≤ time)) = true
      · rw [if_pos hall] at h
        have hall2 : ∀ v ∈ f.times, v ≤ time := by
          intro v hv
          have := (List.all_eq_true.mp hall) v hv
          simpa using this
        rw [Except.ok.injEq, Prod.mk.injEq] at h
        obtain ⟨hti, hper⟩ := h
        refine ⟨hper.symm, ?_, ?_, fun _ => hti.symm⟩
        · intro hlt0
          exact absurd (hall2 _ hmem0) (not_le.mpr hlt0)
        · intro _
          refine ⟨by rw [← hti]; exact hall2 _ hmemL, ?_⟩
          intro j hj _
          omega
      · rw [if_neg hall] at h
        have hex : ∃ a ∈ f.times, time < a := by
          rcases List.all_eq_true.not.mp hall with h2
          push_neg at h2
          obtain ⟨a, ha, hna⟩ := h2
          exact ⟨a, ha, by simpa using hna⟩
        by_cases hany : f.times.any (fun v => decide (v ≤ time)) = true
        · rw [if_pos hany] at h
          have hany2 : ∃ a ∈ f.times, a ≤ time := by
            obtain ⟨a, ha, hxa⟩ := List.any_eq_true.mp hany
            exact ⟨a, ha, by simpa using hxa⟩
          have h0le : f.times.getD 0 0 ≤ time := by
            obtain ⟨a, ha, hxa⟩ := hany2
            exact le_trans (sorted_head_le f.times hs ha) hxa
          rw [Except.ok.injEq, Prod.mk.injEq] at h
          obtain ⟨hti, hper⟩ := h
          obtain ⟨hb1, hb2, hb3, hb4⟩ := firstGT_spec f.times time hs h0le hex
          refine ⟨hper.symm, ?_, ?_, ?_⟩
          · intro hlt0
            exact absurd h0le (not_le.mpr hlt0)
          · intro _
            exact ⟨by rw [← hti]; exact hb2, by rw [← hti]; exact hb4⟩
          · intro hlast
            obtain ⟨a, ha, hxa⟩ := hex
            have hle := sorted_le_last f.times hs ha
            exact absurd hlast (not_lt.mpr (le_of_lt (lt_of_lt_of_le hxa hle)))
        · rw [if_neg hany] at h
          have hnone : ∀ a ∈ f.times, ¬(a ≤ time) := by
            intro a ha hle
            exact hany (List.any_eq_true.mpr ⟨a, ha, by simpa using hle⟩)
          rw [Except.ok.injEq, Prod.mk.injEq] at h
          obtain ⟨hti, hper⟩ := h
          refine ⟨hper.symm, fun _ => hti.symm, ?_, ?_⟩
          · intro h0le
            exact absurd h0le (hnone _ hmem0)
          · intro hlast
            exact absurd (le_of_lt hlast) (hnone _ hmemL)

theorem c2_time_index_amended_witness :
    timeIndex ⟨[0, 10], false, false⟩ 20 = Except.error () := by
  have h := (c2_time_index_amended ⟨[0, 10], false, false⟩ 20
    (by norm_num [List.sorted_cons]) (by norm_num)).1
  exact h.mpr ⟨rfl, rfl, by right; norm_num [List.getLastD]⟩

/-! ## Theorems for claims C3 and C8 -/

section SearchLemmas

variable {F : Type} [LinearOrderedField F]

end SearchLemmas

/-- C3 fails as stated: at a cell with `aa = 1` (so not the quasi-rectilinear
branch) and `det2 = bb²−4·aa·cc = 0`, one iteration retains the previous
`(ξ, η) = (−1, −1)` instead of assigning the claim's quadratic formula, whose
value here is `η = −1/2`. -/
theorem c3_curv_iteration_counterexample :
    curvIterCoords (-1/4) (-1/4) 0 1 2 0 0 0 2 1 (-1) (-1) = (-1, -1) ∧
    curvAA 0 1 2 0 0 0 2 1 = 1 ∧
    curvBB (-1/4) (-1/4) 0 1 2 0 0 0 2 1 = 1 ∧
    curvCC (-1/4) (-1/4) 0 1 2 0 0 0 2 1 = 1/4 ∧
    claimCurvEta 1 1 (1/4) = -1/2 ∧
    ((-1 : ℝ) ≠ -1/2) := by
  have haa : curvAA 0 1 2 0 0 0 2 1 = 1 := by rw [curvAA]; norm_num
  have hbb : curvBB (-1/4) (-1/4) 0 1 2 0 0 0 2 1 = 1 := by rw [curvBB]; norm_num
  have hcc : curvCC (-1/4) (-1/4) 0 1 2 0 0 0 2 1 = 1/4 := by rw [curvCC]; norm_num
  have hdet : curvDet2 (-1/4) (-1/4) 0 1 2 0 0 0 2 1 = 0 := by
    rw [curvDet2, haa, hbb, hcc]
    norm_num
  refine ⟨?_, haa, hbb, hcc, ?_, by norm_num⟩
  · rw [curvIterCoords, if_neg (by rw [haa]; norm_num), if_neg (by rw [hdet]; norm_num)]
  · rw [claimCurvEta]
    norm_num [Real.sqrt_zero]

/-- C3 (amended): one curvilinear iteration computes the claimed
quasi-rectilinear `(ξ, η)` when `|aa| < 10⁻¹²`, computes the claimed
quadratic-root `η` and `ξ = (x−a₀−a₂η)/(a₁+a₃η)` when additionally
`det2 = bb²−4·aa·cc > 0`, and otherwise (the guard the claim omits) keeps
the previous iteration's `(ξ, η)`. -/
theorem c3_curv_iteration_amended (x y px0 px1 px2 px3 py0 py1 py2 py3 xsiP etaP : ℝ) :
    (|curvAA px0 px1 px2 px3 py0 py1 py2 py3| < 1e-12 →
      curvIterCoords x y px0 px1 px2 px3 py0 py1 py2 py3 xsiP etaP =
        (((x - px0) / (px1 - px0) + (x - px3) / (px2 - px3)) * (1 / 2),
         ((y - py0) / (py3 - py0) + (y - py1) / (py2 - py1)) * (1 / 2))) ∧
    (¬|curvAA px0 px1 px2 px3 py0 py1 py2 py3| < 1e-12 →
      0 < curvDet2 x y px0 px1 px2 px3 py0 py1 py2 py3 →
      curvIterCoords x y px0 px1 px2 px3 py0 py1 py2 py3 xsiP etaP =
        ((x - px0 - (px3 - px0) *
            claimCurvEta (curvAA px0 px1 px2 px3 py0 py1 py2 py3)
              (curvBB x y px0 px1 px2 px3 py0 py1 py2 py3)
              (curvCC x y px0 px1 px2 px3 py0 py1 py2 py3)) /
           ((px1 - px0) + (px0 - px1 + px2 - px3) *
            claimCurvEta (curvAA px0 px1 px2 px3 py0 py1 py2 py3)
              (curvBB x y px0 px1 px2 px3 py0 py1 py2 py3)
              (curvCC x y px0 px1 px2 px3 py0 py1 py2 py3)),
         claimCurvEta (curvAA px0 px1 px2 px3 py0 py1 py2 py3)
           (curvBB x y px0 px1 px2 px3 py0 py1 py2 py3)
           (curvCC x y px0 px1 px2 px3 py0 py1 py2 py3))) ∧
    (¬|curvAA px0 px1 px2 px3 py0 py1 py2 py3| < 1e-12 →
      ¬0 < curvDet2 x y px0 px1 px2 px3 py0 py1 py2 py3 →
      curvIterCoords x y px0 px1 px2 px3 py0 py1 py2 py3 xsiP etaP = (xsiP, etaP)) := by
  have hform : claimCurvEta (curvAA px0 px1 px2 px3 py0 py1 py2 py3)
      (curvBB x y px0 px1 px2 px3 py0 py1 py2 py3)
      (curvCC x y px0 px1 px2 px3 py0 py1 py2 py3) =
      curvEtaPlus x y px0 px1 px2 px3 py0 py1 py2 py3 := by
    rw [claimCurvEta, curvEtaPlus, curvDet2]
  refine ⟨?_, ?_, ?_⟩
  · intro h
    rw [curvIterCoords, if_pos h]
  · intro h hdet
    rw [curvIterCoords, if_neg h, if_pos hdet, hform]
  · intro h hdet
    rw [curvIterCoords, if_neg h, if_neg hdet]

theorem c3_curv_iteration_amended_witness :
    curvIterCoords 0 0 0 1 2 0 0 0 2 1 (-1) (-1) = (0, 0) := by
  have h := (c3_curv_iteration_amended 0 0 0 1 2 0 0 0 2 1 (-1) (-1)).2.1
    (by rw [curvAA]; norm_num) (by rw [curvDet2, curvAA, curvBB, curvCC]; norm_num)
  rw [h, claimCurvEta, curvAA, curvBB, curvCC]
  norm_num

/-- C4: `AdvectionRK45` computes the 4th- and 5th-order Fehlberg positions
and the error `κ = √((lon₅−lon₄)² + (lat₅−lat₄)²)`; when `κ ≤ |dt|·10⁻⁹` it
moves the particle to the 4th-order position (and doubles `particle.dt`
exactly when `κ ≤ |dt|·10⁻⁹/10`), and otherwise it leaves the position,
halves `particle.dt` and returns `Repeat`. -/
theorem c4_rk45_adaptive_step (uv : ℚ → ℚ → ℚ → ℚ → ℚ × ℚ) (p : Particle)
    (time dt : ℚ) (lon4 lat4 lon5 lat5 : ℚ)
    (hs : rk45Stages uv p time dt = (lon4, lat4, lon5, lat5))
    (kappa : ℝ)
    (hk : kappa = Real.sqrt (((lon5 - lon4) ^ 2 + (lat5 - lat4) ^ 2 : ℚ) : ℝ)) :
    (kappa ≤ |(dt : ℝ)| * 1e-9 →
      (rk45 uv p time dt).2 = ErrorCode.success ∧
      (rk45 uv p time dt).1.lon = lon4 ∧
      (rk45 uv p time dt).1.lat = lat4 ∧
      (kappa ≤ |(dt : ℝ)| * 1e-9 / 10 → (rk45 uv p time dt).1.dt = p.dt * 2) ∧
      (¬kappa ≤ |(dt : ℝ)| * 1e-9 / 10 → (rk45 uv p time dt).1.dt = p.dt)) ∧
    (¬kappa ≤ |(dt : ℝ)| * 1e-9 →
      (rk45 uv p time dt).2 = ErrorCode.repeatIter ∧
      (rk45 uv p time dt).1.lon = p.lon ∧
      (rk45 uv p time dt).1.lat = p.lat ∧
      (rk45 uv p time dt).1.dt = p.dt / 2) := by
  have he : ((|dt * rk45Tol| ^ 2 : ℚ) : ℝ) = (|(dt : ℝ)| * 1e-9) ^ 2 := by
    push_cast [abs_mul, rk45Tol]
    norm_num
  have he10 : ((|dt * rk45Tol / 10| ^ 2 : ℚ) : ℝ) = (|(dt : ℝ)| * 1e-9 / 10) ^ 2 := by
    push_cast [abs_div, abs_mul, rk45Tol]
    norm_num
    rw [abs_of_pos (show (0 : ℝ) < 1 / 1000000000 by norm_num)]
  have h1 : kappa ≤ |(dt : ℝ)| * 1e-9 ↔
      (lon5 - lon4) ^ 2 + (lat5 - lat4) ^ 2 ≤ |dt * rk45Tol| ^ 2 := by
    rw [hk, Real.sqrt_le_left (by positivity), ← he]
    exact_mod_cast Iff.rfl
  have h2 : kappa ≤ |(dt : ℝ)| * 1e-9 / 10 ↔
      (lon5 - lon4) ^ 2 + (lat5 - lat4) ^ 2 ≤ |dt * rk45Tol / 10| ^ 2 := by
    rw [hk, Real.sqrt_le_left (by positivity), ← he10]
    exact_mod_cast Iff.rfl
  constructor
  · intro hcond
    have hq := h1.mp hcond
    simp only [rk45, hs]
    rw [if_pos hq]
    refine ⟨rfl, rfl, rfl, ?_, ?_⟩
    · intro h10
      rw [if_pos (h2.mp h10)]
    · intro h10
      rw [if_neg (fun hq10 => h10 (h2.mpr hq10))]
  · intro hcond
    have hqn : ¬((lon5 - lon4) ^ 2 + (lat5 - lat4) ^ 2 ≤ |dt * rk45Tol| ^ 2) :=
      fun hq => hcond (h1.mpr hq)
    simp only [rk45, hs]
    rw [if_neg hqn]
    exact ⟨rfl, rfl, rfl, rfl⟩

theorem c4_rk45_adaptive_step_witness :
    (rk45 (fun _ _ _ _ => (0, 0)) ⟨1, 2, 0, 0, 4⟩ 0 1).1.dt = 4 * 2 := by
  have hs : rk45Stages (fun _ _ _ _ => ((0 : ℚ), (0 : ℚ))) ⟨1, 2, 0, 0, 4⟩ 0 1
      = (1, 2, 1, 2) := by
    norm_num [rk45Stages]
  have h := c4_rk45_adaptive_step (fun _ _ _ _ => (0, 0)) ⟨1, 2, 0, 0, 4⟩ 0 1 1 2 1 2 hs 0
    (by norm_num)
  exact (h.1 (by norm_num)).2.2.2.1 (by norm_num)

/-! ## Theorems for claim C7 -/

theorem inPositions_nil_pids : ∀ recorded : List ℤ, inPositions recorded [] = [] := by
  intro recorded
  induction recorded with
  | nil => rfl
  | cons r rs ih => simp [inPositions, ih]

theorem inPositions_cons_not_mem : ∀ (rs : List ℤ) (p : ℤ) (ps : List ℤ), p ∉ rs →
    inPositions rs (p :: ps) = inPositions rs ps := by
  intro rs
  induction rs with
  | nil => intro p ps _; rfl
  | cons r rs2 ih =>
    intro p ps h
    have hr : r ≠ p := by
      intro he
      exact h (by simp [he])
    have h2 : p ∉ rs2 := fun hh => h (List.mem_cons_of_mem _ hh)
    by_cases hm : r ∈ ps
    · rw [inPositions, if_pos (by simp [List.mem_cons, hm]), inPositions, if_pos hm,
        ih p ps h2]
    · rw [inPositions, if_neg (by simp [List.mem_cons, hr, hm]), inPositions, if_neg hm,
        ih p ps h2]

/-- The numpy positional assignment of array-mode `write` is aligned: when
the particle ids form a subsequence of the recorded (duplicate-free)
trajectory ids, there are as many written slots as particles and the `k`-th
particle's data lands in the slot of its own id. -/
theorem inPositions_spec : ∀ (recorded pids : List ℤ),
    pids.Sublist recorded → recorded.Nodup →
    (inPositions recorded pids).length = pids.length ∧
    ∀ k, k < pids.length →
      recorded.getD ((inPositions recorded pids).getD k 0) 0 = pids.getD k 0 := by
  intro recorded
  induction recorded with
  | nil =>
    intro pids hsub _
    rw [List.sublist_nil.mp hsub]
    simp [inPositions]
  | cons r rs ih =>
    intro pids hsub hnd
    obtain ⟨hr_mem, hnd2⟩ := List.nodup_cons.mp hnd
    cases pids with
    | nil => simp [inPositions_nil_pids]
    | cons p ps =>
      by_cases hrp : r = p
      · subst hrp
        have hsub2 : ps.Sublist rs := List.cons_sublist_cons.mp hsub
        have he : inPositions rs (r :: ps) = inPositions rs ps :=
          inPositions_cons_not_mem rs r ps hr_mem
        obtain ⟨ihl, iha⟩ := ih ps hsub2 hnd2
        rw [inPositions, if_pos (by simp)]
        constructor
        · simp [he, ihl]
        · intro k hk
          cases k with
          | zero => simp
          | succ k2 =>
            have hk2 : k2 < ps.length := by simpa using hk
            have hlen2 : k2 < (inPositions rs ps).length := by rw [ihl]; exact hk2
            simp only [List.getD_cons_succ, he]
            rw [List.getD_eq_getElem (List.map _ _) 0 (by simpa using hlen2),
              List.getElem_map,
              ← List.getD_eq_getElem (inPositions rs ps) 0 hlen2,
              List.getD_cons_succ]
            exact iha k2 hk2
      · have hsub2 : (p :: ps).Sublist rs := by
          cases hsub with
          | cons _ h => exact h
          | cons₂ h => exact absurd rfl hrp
        have hrpids : r ∉ p :: ps := by
          intro hmem
          rcases List.mem_cons.mp hmem with he | he
          · exact hrp he
          · exact hr_mem (hsub2.subset (List.mem_cons_of_mem _ he))
        obtain ⟨ihl, iha⟩ := ih (p :: ps) hsub2 hnd2
        rw [inPositions, if_neg hrpids]
        constructor
        · simp [ihl]
        · intro k hk
          have hlen2 : k < (inPositions rs (p :: ps)).length := by rw [ihl]; exact hk
          rw [List.getD_eq_getElem (List.map _ _) 0 (by simpa using hlen2),
            List.getElem_map,
            ← List.getD_eq_getElem (inPositions rs (p :: ps)) 0 hlen2,
            List.getD_cons_succ]
          exact iha k hk

/-- C7 fails as stated: a second `write` at an already-written time is
silently skipped, so no abort happens even though the maximum particle id
(2) exceeds the last recorded trajectory id (1). -/
theorem c7_particlefile_write_counterexample :
    pfWriteArray [1] (some 0) 0 [2] = Except.ok none ∧
    ([1] : List ℤ).getLastD 0 < pyMax [2] := by
  constructor
  · rfl
  · decide

/-- C7 (amended): provided `time` differs from the last written time (a
repeated time is skipped wholesale), an array-mode `write` on a non-empty
particle set aborts iff the maximum particle id exceeds the last recorded
trajectory id; when it does not abort it writes the slots of the recorded
ids present in the set, and if the set's ids form a subsequence of the
(duplicate-free) recorded ids, every particle's data is written to the slot
of its own trajectory id. -/
theorem c7_particlefile_write_amended (recorded pids : List ℤ) (lastTime : Option ℚ)
    (time : ℚ) (hfresh : lastTime ≠ some time) (hne : pids ≠ []) :
    (pfWriteArray recorded lastTime time pids = Except.error () ↔
      recorded.getLastD 0 < pyMax pids) ∧
    (¬recorded.getLastD 0 < pyMax pids →
      pfWriteArray recorded lastTime time pids =
        Except.ok (some (inPositions recorded pids))) ∧
    (pids.Sublist recorded → recorded.Nodup →
      (inPositions recorded pids).length = pids.length ∧
      ∀ k, k < pids.length →
        recorded.getD ((inPositions recorded pids).getD k 0) 0 = pids.getD k 0) := by
  refine ⟨?_, ?_, fun hsub hnd => inPositions_spec recorded pids hsub hnd⟩
  · rw [pfWriteArray, if_neg hfresh]
    constructor
    · intro h
      by_cases hc : pids ≠ [] ∧ recorded.getLastD 0 < pyMax pids
      · exact hc.2
      · rw [if_neg hc] at h
        exact absurd h (by simp)
    · intro h
      rw [if_pos ⟨hne, h⟩]
  · intro h
    rw [pfWriteArray, if_neg hfresh, if_neg (fun hc => h hc.2)]

theorem c7_particlefile_write_amended_witness :
    pfWriteArray [1, 2, 3] none 0 [1, 3] =
      Except.ok (some (inPositions [1, 2, 3] [1, 3])) := by
  have h := (c7_particlefile_write_amended [1, 2, 3] [1, 3] none 0 (by simp) (by simp)).2.1
  exact h (by decide)

end Parcels
